import Mathlib

/-!
Shallow embedding of the repository a57150/AI-Agent.

`src/example/main.py` implements a schema-constrained email classifier:
`parse_and_validate` (JSON decode + schema checks) and `classify_customer_email`
(a repair-retry loop around a model call, slicing the candidate out of the raw
output between the first opening brace and the last closing brace).

`src/MCP/main.py` implements `run_agent`, a two-phase tool-dispatch flow: a
first model call, a `json.loads` attempt on the stripped output, an MCP tool
session invocation when decoding succeeds, and a second model call folding the
tool result back in.

The model service and the MCP tool session are external collaborators; they are
embedded as function parameters (oracles).  Python `json.loads` is embedded as
an executable recursive-descent parser `jsonParse` over the JSON grammar with
Python dict semantics (string keys, duplicate keys resolved last-wins).
-/

/-- JSON values as produced by Python `json.loads`.  Numbers keep their literal
text, which is enough here because no code under verification compares numbers
numerically. -/
inductive Json where
  | null
  | bool (b : Bool)
  | num (lit : String)
  | str (s : String)
  | arr (elems : List Json)
  | obj (fields : List (String × Json))

/-- Whitespace characters accepted between JSON tokens by Python `json.loads`. -/
def isWsPy (c : Char) : Bool :=
  c = ' ' || c = '\t' || c = '\n' || c = '\r'

/-- Drop leading JSON whitespace. -/
def skipWs : List Char → List Char
  | [] => []
  | c :: cs => if isWsPy c then skipWs cs else c :: cs

/-- Value of a hexadecimal digit. -/
def hexVal (c : Char) : Option Nat :=
  if '0' ≤ c ∧ c ≤ '9' then some (c.toNat - '0'.toNat)
  else if 'a' ≤ c ∧ c ≤ 'f' then some (c.toNat - 'a'.toNat + 10)
  else if 'A' ≤ c ∧ c ≤ 'F' then some (c.toNat - 'A'.toNat + 10)
  else none

/-- Parse the body of a JSON string literal (the opening quote already
consumed): returns the decoded characters and the rest of the input. -/
def escFor (e : Char) : Option Char :=
  if e = '"' then some '"'
  else if e = '\\' then some '\\'
  else if e = '/' then some '/'
  else if e = 'b' then some '\x08'
  else if e = 'f' then some '\x0c'
  else if e = 'n' then some '\n'
  else if e = 'r' then some '\r'
  else if e = 't' then some '\t'
  else none

/-- Decode one escape sequence after a backslash: the decoded character and
the rest of the input. -/
def escParse (cs : List Char) : Option (Char × List Char) :=
  match cs with
  | [] => none
  | e :: cs2 =>
    match escFor e with
    | some ch => some (ch, cs2)
    | none =>
      if e = 'u' then
        match cs2 with
        | [] => none
        | h1 :: t1 =>
          match t1 with
          | [] => none
          | h2 :: t2 =>
            match t2 with
            | [] => none
            | h3 :: t3 =>
              match t3 with
              | [] => none
              | h4 :: cs3 =>
                match hexVal h1, hexVal h2, hexVal h3, hexVal h4 with
                | some a, some b, some c2, some d =>
                  some (Char.ofNat (((a * 16 + b) * 16 + c2) * 16 + d), cs3)
                | _, _, _, _ => none
      else none

/-- Parse the body of a JSON string literal (the opening quote already
consumed), fuel-indexed: returns the decoded characters and the rest of the
input. -/
def pStrL : Nat → List Char → Option (List Char × List Char)
  | 0, _ => none
  | _ + 1, [] => none
  | fuel + 1, c :: cs =>
    if c = '"' then some ([], cs)
    else if c = '\\' then
      match escParse cs with
      | none => none
      | some (ch, rest) => (pStrL fuel rest).map (fun p => (ch :: p.1, p.2))
    else if c.toNat < 32 then none
    else (pStrL fuel cs).map (fun p => (c :: p.1, p.2))

/-- Split off a maximal run of decimal digits. -/
def digits : List Char → List Char × List Char
  | [] => ([], [])
  | c :: cs =>
    if c.isDigit then
      let p := digits cs
      (c :: p.1, p.2)
    else ([], c :: cs)

/-- Parse an optional fraction part (dot followed by at least one digit). -/
def pFrac (s : List Char) : Option (List Char × List Char) :=
  match s with
  | '.' :: r =>
    if (digits r).1.isEmpty then none else some ('.' :: (digits r).1, (digits r).2)
  | _ => some ([], s)

/-- Parse an optional exponent part. -/
def pExp (s : List Char) : Option (List Char × List Char) :=
  match s with
  | c :: r =>
    if c = 'e' ∨ c = 'E' then
      match r with
      | '+' :: r2 =>
        if (digits r2).1.isEmpty then none
        else some (c :: '+' :: (digits r2).1, (digits r2).2)
      | '-' :: r2 =>
        if (digits r2).1.isEmpty then none
        else some (c :: '-' :: (digits r2).1, (digits r2).2)
      | r1 =>
        if (digits r1).1.isEmpty then none
        else some (c :: (digits r1).1, (digits r1).2)
    else some ([], c :: r)
  | [] => some ([], [])

/-- Integer, fraction and exponent parts of a number literal after an optional
minus sign `neg`. -/
def pNumCore (neg : List Char) (s1 : List Char) : Option (List Char × List Char) :=
  if (digits s1).1.isEmpty then none
  else if (digits s1).1.length > 1 && (digits s1).1.head? = some '0' then none
  else
    match pFrac (digits s1).2 with
    | none => none
    | some (fr, s3) =>
      match pExp s3 with
      | none => none
      | some (ex, s4) => some (neg ++ (digits s1).1 ++ fr ++ ex, s4)

/-- Parse a JSON number literal (with the JSON leading-zero restriction),
returning its literal characters and the rest of the input. -/
def pNum (s : List Char) : Option (List Char × List Char) :=
  match s with
  | '-' :: r => pNumCore ['-'] r
  | _ => pNumCore [] s

/-- Insert a key into a Python-dict-like association list: an existing key is
updated in place (last value wins), a new key is appended. -/
def insertKV : List (String × Json) → String → Json → List (String × Json)
  | [], k, v => [(k, v)]
  | (k1, v1) :: rest, k, v =>
    if k1 = k then (k1, v) :: rest else (k1, v1) :: insertKV rest k v

/-- Parser mode: a whole value, the items of an array after the opening
bracket, or the members of an object after the opening brace. -/
inductive PM where
  | val
  | arrItems (acc : List Json)
  | objItems (acc : List (String × Json))

/-- Fuel-indexed recursive-descent JSON parser (the core of the embedding of
Python `json.loads`). -/
def pJ : Nat → PM → List Char → Option (Json × List Char)
  | 0, _, _ => none
  | fuel + 1, PM.val, s0 =>
    (match skipWs s0 with
     | 'n' :: 'u' :: 'l' :: 'l' :: cs => some (Json.null, cs)
     | 't' :: 'r' :: 'u' :: 'e' :: cs => some (Json.bool true, cs)
     | 'f' :: 'a' :: 'l' :: 's' :: 'e' :: cs => some (Json.bool false, cs)
     | '"' :: cs => (pStrL cs.length cs).map (fun p => (Json.str (String.mk p.1), p.2))
     | '[' :: cs =>
       (match skipWs cs with
        | ']' :: cs2 => some (Json.arr [], cs2)
        | cs2 => pJ fuel (PM.arrItems []) cs2)
     | '{' :: cs =>
       (match skipWs cs with
        | '}' :: cs2 => some (Json.obj [], cs2)
        | cs2 => pJ fuel (PM.objItems []) cs2)
     | other => (pNum other).map (fun p => (Json.num (String.mk p.1), p.2)))
  | fuel + 1, PM.arrItems acc, s =>
    (match pJ fuel PM.val s with
     | none => none
     | some (v, r) =>
       match skipWs r with
       | ',' :: r2 => pJ fuel (PM.arrItems (acc ++ [v])) r2
       | ']' :: r2 => some (Json.arr (acc ++ [v]), r2)
       | _ => none)
  | fuel + 1, PM.objItems acc, s =>
    (match skipWs s with
     | '"' :: cs =>
       (match pStrL cs.length cs with
        | none => none
        | some (kcs, r) =>
          match skipWs r with
          | ':' :: r2 =>
            (match pJ fuel PM.val r2 with
             | none => none
             | some (v, r3) =>
               match skipWs r3 with
               | ',' :: r4 => pJ fuel (PM.objItems (insertKV acc (String.mk kcs) v)) r4
               | '}' :: r4 => some (Json.obj (insertKV acc (String.mk kcs) v), r4)
               | _ => none)
          | _ => none)
     | _ => none)

/-- Embedding of Python `json.loads`: parse a whole value and require that only
whitespace remains (otherwise Python raises the Extra data decode error). -/
def jsonParse (s : String) : Option Json :=
  match pJ (2 * s.toList.length + 8) PM.val s.toList with
  | some (v, rest) => if (skipWs rest).isEmpty then some v else none
  | none => none

/-! ## Schema contract and validator (`src/example/main.py`, `EMAIL_SCHEMA` and
`parse_and_validate`) -/

/-- Allowed category literals (`EMAIL_SCHEMA["category"]`). -/
def EMAIL_CATEGORIES : List String := ["付款問題", "技術問題", "帳號問題", "其他"]

/-- Allowed urgency literals (`EMAIL_SCHEMA["urgency"]`). -/
def EMAIL_URGENCIES : List String := ["low", "medium", "high"]

/-- Maximum summary length (`EMAIL_SCHEMA["summary_max_len"]`). -/
def SUMMARY_MAX_LEN : Nat := 20

/-- The required key set of the schema contract. -/
def requiredKeys : List String := ["category", "urgency", "summary"]

/-- Validation failures of `parse_and_validate`, one constructor per `raise`
site, plus `attrNoKeys` for the `AttributeError` that Python raises at
`result.keys()` when `json.loads` returned a non-dict. -/
inductive VError where
  | notParseable
  | attrNoKeys (typeName : String)
  | keysMismatch (keys : List String)
  | invalidCategory
  | invalidUrgency
  | invalidSummary
deriving DecidableEq, Repr

/-- Python type name of a decoded JSON value, as it appears in the
`AttributeError` message. -/
def pyTypeName : Json → String
  | Json.null => "NoneType"
  | Json.bool _ => "bool"
  | Json.num lit =>
    if lit.toList.contains '.' || lit.toList.contains 'e' || lit.toList.contains 'E' then "float"
    else "int"
  | Json.str _ => "str"
  | Json.arr _ => "list"
  | Json.obj _ => "dict"

/-- Rendering of a Python `dict_keys` view, used in the keys-mismatch message. -/
def keysRepr (keys : List String) : String :=
  "dict_keys([" ++ String.intercalate ", " (keys.map (fun k => "\x27" ++ k ++ "\x27")) ++ "])"

/-- The `str(e)` message of each validation failure, exactly as produced by the
Python exceptions in `parse_and_validate`. -/
def vErrMsg : VError → String
  | VError.notParseable => "Output is not valid JSON"
  | VError.attrNoKeys t => "\x27" ++ t ++ "\x27 object has no attribute \x27keys\x27"
  | VError.keysMismatch ks => "Schema keys mismatch: " ++ keysRepr ks
  | VError.invalidCategory => "Invalid category value"
  | VError.invalidUrgency => "Invalid urgency value"
  | VError.invalidSummary => "Invalid summary length"

/-- Python set equality of two key lists (`set(result.keys()) != required_keys`). -/
def sameSet (a b : List String) : Bool :=
  decide ((∀ k ∈ a, k ∈ b) ∧ (∀ k ∈ b, k ∈ a))

/-- Check of `result["category"] not in EMAIL_SCHEMA["category"]` (membership of
a decoded JSON value in a list of Python strings). -/
def catOk : Json → Bool
  | Json.str s => EMAIL_CATEGORIES.contains s
  | _ => false

/-- Check of `result["urgency"] not in EMAIL_SCHEMA["urgency"]`. -/
def urgOk : Json → Bool
  | Json.str s => EMAIL_URGENCIES.contains s
  | _ => false

/-- Check of `isinstance(result["summary"], str) and len(...) <= summary_max_len`. -/
def sumOk : Json → Bool
  | Json.str s => decide (s.length ≤ SUMMARY_MAX_LEN)
  | _ => false

/-- Checks of `parse_and_validate` after `json.loads` succeeded: the key-set
comparison, then the category, urgency and summary domain checks, in source
order, short-circuiting at the first failure.  A non-dict value hits
`result.keys()` and raises `AttributeError`. -/
def validate (j : Json) : Except VError Json :=
  match j with
  | Json.obj kvs =>
    if ¬ sameSet (kvs.map Prod.fst) requiredKeys then
      Except.error (VError.keysMismatch (kvs.map Prod.fst))
    else if ¬ catOk ((kvs.lookup "category").getD Json.null) then
      Except.error VError.invalidCategory
    else if ¬ urgOk ((kvs.lookup "urgency").getD Json.null) then
      Except.error VError.invalidUrgency
    else if ¬ sumOk ((kvs.lookup "summary").getD Json.null) then
      Except.error VError.invalidSummary
    else Except.ok (Json.obj kvs)
  | other => Except.error (VError.attrNoKeys (pyTypeName other))

/-- Embedding of `parse_and_validate`: `json.loads`, then the schema checks. -/
def parse_and_validate (text : String) : Except VError Json :=
  match jsonParse text with
  | none => Except.error VError.notParseable
  | some j => validate j

/-! ## Candidate extraction and the repair-retry loop
(`src/example/main.py`, `classify_customer_email`) -/

/-- Index of the first occurrence of a character (Python `str.find`, with
`none` for `-1`). -/
def findChar (c : Char) : List Char → Option Nat
  | [] => none
  | x :: xs => if x = c then some 0 else (findChar c xs).map (· + 1)

/-- Index of the last occurrence of a character (Python `str.rfind`, with
`none` for `-1`). -/
def rfindChar (c : Char) (s : List Char) : Option Nat :=
  (findChar c s.reverse).map (fun i => s.length - 1 - i)

/-- The candidate-slicing step of `classify_customer_email`:
`start = raw.find("{")`, `end = raw.rfind("}")`, and if both exist the slice
`raw[start:end+1]` (empty when `end < start`), otherwise the text unchanged. -/
def braceSlice (s : String) : String :=
  match findChar '{' s.toList, rfindChar '}' s.toList with
  | some i, some j => String.mk ((s.toList.drop i).take (j + 1 - i))
  | _, _ => s

/-- The repair instruction built from the previous attempt error message
(`email_text` reassignment in `classify_customer_email`). -/
def repairPrompt (err : String) : String :=
  "你的上一個輸出不符合 schema，錯誤原因：" ++ err ++ "\n請修正並僅輸出合法 JSON。"

/-- Terminal failures of `classify_customer_email`: the `RuntimeError` raised
after the budget is exhausted (carrying `str(last_error)`), or an exception
raised by `call_llm` itself, which the loop body does not catch. -/
inductive ClassifyError where
  | exhausted (lastError : String)
  | modelError (msg : String)
deriving DecidableEq, Repr

/-- The `for` loop of `classify_customer_email`.  The model is an oracle
`llm : call index → user text → Except error output` (the call index counts
prior calls; `call_llm` wraps the user text in a fixed prompt, which the oracle
absorbs).  The returned list is the sequence of user texts sent to the model,
so its length is the number of model calls made. -/
def classifyLoop (llm : Nat → String → Except String String) :
    Nat → List String → String → Option String → List String × Except ClassifyError Json
  | 0, sent, _, lastErr => (sent, Except.error (ClassifyError.exhausted (lastErr.getD "None")))
  | fuel + 1, sent, email, _ =>
    match llm sent.length email with
    | Except.error e => (sent ++ [email], Except.error (ClassifyError.modelError e))
    | Except.ok raw =>
      match parse_and_validate (braceSlice raw) with
      | Except.ok v => (sent ++ [email], Except.ok v)
      | Except.error err =>
        classifyLoop llm fuel (sent ++ [email]) (repairPrompt (vErrMsg err)) (some (vErrMsg err))

/-- Embedding of `classify_customer_email(email_text, max_retry)`: run the loop
for `max_retry + 1` iterations. -/
def classify_customer_email (llm : Nat → String → Except String String)
    (email : String) (maxRetry : Nat) : List String × Except ClassifyError Json :=
  classifyLoop llm (maxRetry + 1) [] email none

/-! ## Tool dispatch (`src/MCP/main.py`, `run_agent`) -/

/-- Message roles of the chat API. -/
inductive Role where
  | system
  | user
  | assistant
  | tool
deriving DecidableEq, Repr

/-- A role-tagged chat message. -/
structure Msg where
  role : Role
  content : String
deriving DecidableEq, Repr

/-- The system prompt of the first model call in `run_agent`. -/
def MCP_SYSTEM_PROMPT : String :=
  "\n你是一個 tool-using agent。\n\n你可以使用下列 tools：\n- get_alerts(state: string)\n- get_forecast(latitude: float, longitude: float)\n\n【規則】\n- 如果需要使用工具，請輸出 JSON\n- 不要解釋\n- 格式必須完全符合\n\n\x7b\"tool\": \"tool_name\", \"arguments\": \x7b ... \x7d\x7d\n\n如果不需要工具，直接用自然語言回答。\n"

/-- The system prompt of the second (folding) model call in `run_agent`. -/
def FINAL_SYSTEM_PROMPT : String := "你是助理，請根據工具結果回答使用者"

/-- Characters stripped by Python `str.strip()` (the ASCII whitespace subset,
which covers the completions handled here). -/
def isPySpace (c : Char) : Bool :=
  c = ' ' || c = '\t' || c = '\n' || c = '\r' || c = '\x0b' || c = '\x0c'

/-- Drop leading strip-characters. -/
def dropLeadingWs : List Char → List Char
  | [] => []
  | c :: cs => if isPySpace c then dropLeadingWs cs else c :: cs

/-- Embedding of Python `str.strip()`: drop leading and trailing whitespace. -/
def pyStrip (s : String) : String :=
  String.mk ((dropLeadingWs ((dropLeadingWs s.toList).reverse)).reverse)

/-- The message list of the first model call in `run_agent`. -/
def firstCallMsgs (userInput : String) : List Msg :=
  [⟨Role.system, MCP_SYSTEM_PROMPT⟩, ⟨Role.user, userInput⟩]

/-- The message list of the second model call in `run_agent`: the fixed system
turn, the original user turn, an assistant turn with the raw (stripped)
tool-call text, and a tool-role turn with the tool result text. -/
def secondCallMsgs (userInput content toolResult : String) : List Msg :=
  [⟨Role.system, FINAL_SYSTEM_PROMPT⟩, ⟨Role.user, userInput⟩,
   ⟨Role.assistant, content⟩, ⟨Role.tool, toolResult⟩]

/-- Errors that end a `run_agent` turn: the `TypeError` from subscripting a
non-dict decoded value (`tool_call["tool"]`), the `KeyError` from a missing
key, or an error raised by `session.call_tool`. -/
inductive PyError where
  | typeErrorSub (typeName : String)
  | keyError (key : String)
  | toolError (msg : String)
deriving DecidableEq, Repr

/-- Observable outcome of one `run_agent` turn: how many MCP tool sessions
were opened, which `call_tool` invocations were made (tool name and arguments
exactly as taken from the decoded payload), the message list of the second
model call when one was issued, and the final answer or the propagated
error. -/
structure AgentResult where
  sessionsCreated : Nat
  toolCalls : List (Json × Json)
  sndMsgs : Option (List Msg)
  outcome : Except PyError String

/-- Embedding of `run_agent`.  The model is an oracle from the message list to
the completion text; the MCP session is an oracle `callTool` from the decoded
tool name and arguments (any JSON values — the code performs no check) to a
tool result text or an error.  Control flow follows the source: the stripped
first completion is `json.loads`-decoded; a decode failure returns the stripped
text as the final answer with no session; otherwise the session is opened
before `tool_call["tool"]` and `tool_call["arguments"]` are evaluated, so a
non-dict payload or a missing key errors after session creation and without a
`call_tool` invocation. -/
def runAgent (llm : List Msg → String) (callTool : Json → Json → Except String String)
    (userInput : String) : AgentResult :=
  let content := pyStrip (llm (firstCallMsgs userInput))
  match jsonParse content with
  | none => ⟨0, [], none, Except.ok content⟩
  | some tc =>
    match tc with
    | Json.obj kvs =>
      (match kvs.lookup "tool" with
       | none => ⟨1, [], none, Except.error (PyError.keyError "tool")⟩
       | some name =>
         match kvs.lookup "arguments" with
         | none => ⟨1, [], none, Except.error (PyError.keyError "arguments")⟩
         | some args =>
           match callTool name args with
           | Except.error e => ⟨1, [(name, args)], none, Except.error (PyError.toolError e)⟩
           | Except.ok toolResult =>
             ⟨1, [(name, args)], some (secondCallMsgs userInput content toolResult),
              Except.ok (llm (secondCallMsgs userInput content toolResult))⟩)
    | other => ⟨1, [], none, Except.error (PyError.typeErrorSub (pyTypeName other))⟩

/-! ## Helper lemmas -/

theorem skipWs_subset {c : Char} : ∀ cs : List Char, c ∈ skipWs cs → c ∈ cs
  | [], h => by simp [skipWs] at h
  | x :: xs, h => by
    simp only [skipWs] at h
    split at h
    · exact List.mem_cons_of_mem x (skipWs_subset xs h)
    · exact h

theorem findChar_eq_none {c : Char} : ∀ cs : List Char, findChar c cs = none ↔ c ∉ cs
  | [] => by simp [findChar]
  | x :: xs => by
    simp only [findChar]
    by_cases hx : x = c
    · simp [hx]
    · simp [hx, findChar_eq_none xs, Ne.symm hx]

theorem findChar_cons_self (c : Char) (xs : List Char) : findChar c (c :: xs) = some 0 := by
  simp [findChar]

theorem findChar_append_not_mem {c : Char} :
    ∀ xs ys : List Char, c ∉ xs →
      findChar c (xs ++ ys) = (findChar c ys).map (· + xs.length) := by
  intro xs
  induction xs with
  | nil => intro ys _; simp
  | cons x xs ih =>
    intro ys h
    have hx : ¬ x = c := fun e => h (by simp [e])
    have hxs : c ∉ xs := fun hc => h (List.mem_cons_of_mem _ hc)
    have hstep : findChar c (x :: xs ++ ys) = (findChar c (xs ++ ys)).map (· + 1) := by
      simp [findChar, hx]
    rw [hstep, ih ys hxs]
    cases findChar c ys <;> simp [Nat.add_assoc]

theorem lookup_of_mem_keys :
    ∀ (kvs : List (String × Json)) (k : String),
      k ∈ kvs.map Prod.fst → ∃ v, kvs.lookup k = some v
  | [], k, h => by simp at h
  | (k1, v1) :: rest, k, h => by
    by_cases hk : k = k1
    · exact ⟨v1, by simp [List.lookup, hk]⟩
    · have hmem : k ∈ rest.map Prod.fst := by
        rcases (List.mem_cons).mp h with h1 | h1
        · exact absurd h1 hk
        · exact h1
      obtain ⟨v, hv⟩ := lookup_of_mem_keys rest k hmem
      refine ⟨v, ?_⟩
      have hbeq : (k == k1) = false := beq_eq_false_iff_ne.mpr hk
      simp [List.lookup, hbeq, hv]

theorem sameSet_iff {a b : List String} :
    sameSet a b = true ↔ ((∀ k ∈ a, k ∈ b) ∧ (∀ k ∈ b, k ∈ a)) := by
  simp [sameSet]

theorem catOk_iff {j : Json} : catOk j = true ↔ ∃ s, j = Json.str s ∧ s ∈ EMAIL_CATEGORIES := by
  cases j <;> simp [catOk, List.contains, List.elem_iff]

theorem urgOk_iff {j : Json} : urgOk j = true ↔ ∃ s, j = Json.str s ∧ s ∈ EMAIL_URGENCIES := by
  cases j <;> simp [urgOk, List.contains, List.elem_iff]

theorem sumOk_iff {j : Json} : sumOk j = true ↔ ∃ s, j = Json.str s ∧ s.length ≤ SUMMARY_MAX_LEN := by
  cases j <;> simp [sumOk]

theorem validate_ok_iff {j v : Json} :
    validate j = Except.ok v ↔
      ∃ kvs, j = Json.obj kvs ∧
        sameSet (kvs.map Prod.fst) requiredKeys = true ∧
        catOk ((kvs.lookup "category").getD Json.null) = true ∧
        urgOk ((kvs.lookup "urgency").getD Json.null) = true ∧
        sumOk ((kvs.lookup "summary").getD Json.null) = true ∧
        v = Json.obj kvs := by
  cases j with
  | obj kvs =>
    constructor
    · intro h
      simp only [validate] at h
      by_cases h1 : sameSet (kvs.map Prod.fst) requiredKeys
      · rw [if_neg (by simp [h1])] at h
        by_cases h2 : catOk ((kvs.lookup "category").getD Json.null)
        · rw [if_neg (by simp [h2])] at h
          by_cases h3 : urgOk ((kvs.lookup "urgency").getD Json.null)
          · rw [if_neg (by simp [h3])] at h
            by_cases h4 : sumOk ((kvs.lookup "summary").getD Json.null)
            · rw [if_neg (by simp [h4])] at h
              cases h
              exact ⟨kvs, rfl, h1, h2, h3, h4, rfl⟩
            · rw [if_pos (by simp [h4])] at h
              exact Except.noConfusion h
          · rw [if_pos (by simp [h3])] at h
            exact Except.noConfusion h
        · rw [if_pos (by simp [h2])] at h
          exact Except.noConfusion h
      · rw [if_pos (by simp [h1])] at h
        exact Except.noConfusion h
    · rintro ⟨kvs2, heq, h1, h2, h3, h4, hv⟩
      injection heq with hk
      subst hk
      subst hv
      simp only [validate]
      rw [if_neg (by simp [h1]), if_neg (by simp [h2]), if_neg (by simp [h3]),
        if_neg (by simp [h4])]
  | null => simp [validate]
  | bool b => simp [validate]
  | num l => simp [validate]
  | str s => simp [validate]
  | arr es => simp [validate]

/-- Spec-side acceptance predicate, phrased from the specification words: keys
exactly the required fields, category and urgency equal to one of the allowed
literals, summary a string whose length does not exceed the maximum. -/
def specAccepts (kvs : List (String × Json)) : Prop :=
  (∀ k, k ∈ kvs.map Prod.fst ↔ k ∈ requiredKeys) ∧
  (∃ c, kvs.lookup "category" = some (Json.str c) ∧ c ∈ EMAIL_CATEGORIES) ∧
  (∃ u, kvs.lookup "urgency" = some (Json.str u) ∧ u ∈ EMAIL_URGENCIES) ∧
  (∃ s, kvs.lookup "summary" = some (Json.str s) ∧ s.length ≤ SUMMARY_MAX_LEN)

theorem checks_iff_specAccepts {kvs : List (String × Json)} :
    (sameSet (kvs.map Prod.fst) requiredKeys = true ∧
     catOk ((kvs.lookup "category").getD Json.null) = true ∧
     urgOk ((kvs.lookup "urgency").getD Json.null) = true ∧
     sumOk ((kvs.lookup "summary").getD Json.null) = true) ↔ specAccepts kvs := by
  constructor
  · rintro ⟨h1, h2, h3, h4⟩
    have hk := sameSet_iff.mp h1
    have hmemK : ∀ k, k ∈ kvs.map Prod.fst ↔ k ∈ requiredKeys :=
      fun k => ⟨fun h => hk.1 k h, fun h => hk.2 k h⟩
    refine ⟨hmemK, ?_, ?_, ?_⟩
    · obtain ⟨val, hval⟩ :=
        lookup_of_mem_keys kvs "category" ((hmemK _).mpr (by simp [requiredKeys]))
      rw [hval] at h2
      obtain ⟨c, hc, hcm⟩ := catOk_iff.mp (by simpa using h2)
      exact ⟨c, by rw [hval, hc], hcm⟩
    · obtain ⟨val, hval⟩ :=
        lookup_of_mem_keys kvs "urgency" ((hmemK _).mpr (by simp [requiredKeys]))
      rw [hval] at h3
      obtain ⟨u, hu, hum⟩ := urgOk_iff.mp (by simpa using h3)
      exact ⟨u, by rw [hval, hu], hum⟩
    · obtain ⟨val, hval⟩ :=
        lookup_of_mem_keys kvs "summary" ((hmemK _).mpr (by simp [requiredKeys]))
      rw [hval] at h4
      obtain ⟨s, hs, hsm⟩ := sumOk_iff.mp (by simpa using h4)
      exact ⟨s, by rw [hval, hs], hsm⟩
  · rintro ⟨hmemK, ⟨c, hc, hcm⟩, ⟨u, hu, hum⟩, ⟨s, hs, hsm⟩⟩
    refine ⟨sameSet_iff.mpr ⟨fun k hk => (hmemK k).mp hk, fun k hk => (hmemK k).mpr hk⟩,
      ?_, ?_, ?_⟩
    · rw [hc]
      exact catOk_iff.mpr ⟨c, rfl, hcm⟩
    · rw [hu]
      exact urgOk_iff.mpr ⟨u, rfl, hum⟩
    · rw [hs]
      exact sumOk_iff.mpr ⟨s, rfl, hsm⟩

/-! ## C1 -/

/-- C1 (amended): `parse_and_validate` decides acceptance against a candidate
text by short-circuiting checks in source order.  A JSON-decode failure is the
not-parseable violation; a successful decode to a non-mapping value raises the
uncategorized keys attribute error (not the not-parseable violation); for a
mapping, the key-set comparison fires first, then the category, urgency and
summary domain checks in that order, each with its categorized violation; the
accepted results are exactly the decoded mappings satisfying the spec-side
predicate `specAccepts` (keys exactly the required fields and every value in
its declared domain), and in particular a payload with exactly the three
required keys, a valid category, a valid urgency, and a within-bound summary
string is accepted unchanged. -/
theorem C1_validator_cascade :
    (∀ t, jsonParse t = none → parse_and_validate t = Except.error VError.notParseable) ∧
    (∀ t j, jsonParse t = some j → (∀ kvs, j ≠ Json.obj kvs) →
      parse_and_validate t = Except.error (VError.attrNoKeys (pyTypeName j))) ∧
    (∀ t kvs, jsonParse t = some (Json.obj kvs) →
      sameSet (kvs.map Prod.fst) requiredKeys = false →
      parse_and_validate t = Except.error (VError.keysMismatch (kvs.map Prod.fst))) ∧
    (∀ t kvs, jsonParse t = some (Json.obj kvs) →
      sameSet (kvs.map Prod.fst) requiredKeys = true →
      catOk ((kvs.lookup "category").getD Json.null) = false →
      parse_and_validate t = Except.error VError.invalidCategory) ∧
    (∀ t kvs, jsonParse t = some (Json.obj kvs) →
      sameSet (kvs.map Prod.fst) requiredKeys = true →
      catOk ((kvs.lookup "category").getD Json.null) = true →
      urgOk ((kvs.lookup "urgency").getD Json.null) = false →
      parse_and_validate t = Except.error VError.invalidUrgency) ∧
    (∀ t kvs, jsonParse t = some (Json.obj kvs) →
      sameSet (kvs.map Prod.fst) requiredKeys = true →
      catOk ((kvs.lookup "category").getD Json.null) = true →
      urgOk ((kvs.lookup "urgency").getD Json.null) = true →
      sumOk ((kvs.lookup "summary").getD Json.null) = false →
      parse_and_validate t = Except.error VError.invalidSummary) ∧
    (∀ t v, parse_and_validate t = Except.ok v ↔
      ∃ kvs, jsonParse t = some (Json.obj kvs) ∧ specAccepts kvs ∧ v = Json.obj kvs) ∧
    (∀ c u s, c ∈ EMAIL_CATEGORIES → u ∈ EMAIL_URGENCIES → s.length ≤ SUMMARY_MAX_LEN →
      validate (Json.obj
          [("category", Json.str c), ("urgency", Json.str u), ("summary", Json.str s)]) =
        Except.ok (Json.obj
          [("category", Json.str c), ("urgency", Json.str u), ("summary", Json.str s)])) := by
  refine ⟨?_, ?_, ?_, ?_, ?_, ?_, ?_, ?_⟩
  · intro t ht
    simp [parse_and_validate, ht]
  · intro t j ht hj
    rw [parse_and_validate, ht]
    cases j with
    | obj kvs => exact absurd rfl (hj kvs)
    | null => rfl
    | bool b => rfl
    | num l => rfl
    | str s => rfl
    | arr es => rfl
  · intro t kvs ht h1
    rw [parse_and_validate, ht]
    simp only [validate]
    rw [if_pos (by simp [h1])]
  · intro t kvs ht h1 h2
    rw [parse_and_validate, ht]
    simp only [validate]
    rw [if_neg (by simp [h1]), if_pos (by simp [h2])]
  · intro t kvs ht h1 h2 h3
    rw [parse_and_validate, ht]
    simp only [validate]
    rw [if_neg (by simp [h1]), if_neg (by simp [h2]), if_pos (by simp [h3])]
  · intro t kvs ht h1 h2 h3 h4
    rw [parse_and_validate, ht]
    simp only [validate]
    rw [if_neg (by simp [h1]), if_neg (by simp [h2]), if_neg (by simp [h3]),
      if_pos (by simp [h4])]
  · intro t v
    rw [parse_and_validate]
    cases hparse : jsonParse t with
    | none =>
      simp only []
      constructor
      · intro h
        exact Except.noConfusion h
      · rintro ⟨kvs, hk, -⟩
        exact Option.noConfusion hk
    | some j =>
      simp only []
      rw [validate_ok_iff]
      constructor
      · rintro ⟨kvs, rfl, h1, h2, h3, h4, hv⟩
        exact ⟨kvs, rfl, checks_iff_specAccepts.mp ⟨h1, h2, h3, h4⟩, hv⟩
      · rintro ⟨kvs, hk, hspec, hv⟩
        injection hk with hk2
        obtain ⟨g1, g2, g3, g4⟩ := checks_iff_specAccepts.mpr hspec
        exact ⟨kvs, hk2, g1, g2, g3, g4, hv⟩
  · intro c u s hc hu hs
    rcases validate_ok_iff (j := Json.obj
        [("category", Json.str c), ("urgency", Json.str u), ("summary", Json.str s)])
        (v := Json.obj
        [("category", Json.str c), ("urgency", Json.str u), ("summary", Json.str s)]) with ⟨-, hback⟩
    refine hback ⟨_, rfl, ?_, ?_, ?_, ?_, rfl⟩
    · apply sameSet_iff.mpr
      constructor
      · intro k hk
        simpa [requiredKeys] using hk
      · intro k hk
        simpa [requiredKeys] using hk
    · simp [List.lookup, catOk, List.contains, List.elem_iff, hc]
    · simp [List.lookup, urgOk, List.contains, List.elem_iff, hu]
    · simp [List.lookup, sumOk, hs]

/-- C1 counterexample: the text `[1, 2]` decodes successfully but not to a
key-to-value mapping, and `parse_and_validate` raises the keys attribute error
on it, not the not-parseable violation that the claim assigns to every failure
to parse into a mapping. -/
theorem C1_counterexample :
    jsonParse "[1, 2]" = some (Json.arr [Json.num "1", Json.num "2"]) ∧
    parse_and_validate "[1, 2]" = Except.error (VError.attrNoKeys "list") ∧
    parse_and_validate "[1, 2]" ≠ Except.error VError.notParseable := by
  refine ⟨rfl, rfl, ?_⟩
  rw [show parse_and_validate "[1, 2]" = Except.error (VError.attrNoKeys "list") from rfl]
  simp

/-- C1 witness: the acceptance clause of `C1_validator_cascade` applied to a
concrete in-domain payload. -/
theorem C1_witness :
    "其他" ∈ EMAIL_CATEGORIES ∧ "low" ∈ EMAIL_URGENCIES ∧
    ("ok" : String).length ≤ SUMMARY_MAX_LEN ∧
    validate (Json.obj
        [("category", Json.str "其他"), ("urgency", Json.str "low"), ("summary", Json.str "ok")]) =
      Except.ok (Json.obj
        [("category", Json.str "其他"), ("urgency", Json.str "low"), ("summary", Json.str "ok")]) :=
  ⟨by simp [EMAIL_CATEGORIES], by simp [EMAIL_URGENCIES], by decide,
    C1_validator_cascade.2.2.2.2.2.2.2 "其他" "low" "ok"
      (by simp [EMAIL_CATEGORIES]) (by simp [EMAIL_URGENCIES]) (by decide)⟩

/-! ## Equation and trace lemmas for the retry loop -/

theorem classifyLoop_zero (llm : Nat → String → Except String String)
    (sent : List String) (email : String) (lastErr : Option String) :
    classifyLoop llm 0 sent email lastErr =
      (sent, Except.error (ClassifyError.exhausted (lastErr.getD "None"))) := rfl

theorem classifyLoop_model_err {llm : Nat → String → Except String String}
    {fuel : Nat} {sent : List String} {email : String} {lastErr : Option String} {e : String}
    (h : llm sent.length email = Except.error e) :
    classifyLoop llm (fuel + 1) sent email lastErr =
      (sent ++ [email], Except.error (ClassifyError.modelError e)) := by
  simp only [classifyLoop]
  rw [h]

theorem classifyLoop_ok {llm : Nat → String → Except String String}
    {fuel : Nat} {sent : List String} {email : String} {lastErr : Option String}
    {raw : String} {v : Json}
    (h1 : llm sent.length email = Except.ok raw)
    (h2 : parse_and_validate (braceSlice raw) = Except.ok v) :
    classifyLoop llm (fuel + 1) sent email lastErr = (sent ++ [email], Except.ok v) := by
  simp only [classifyLoop]
  rw [h1]
  simp only []
  rw [h2]

theorem classifyLoop_retry {llm : Nat → String → Except String String}
    {fuel : Nat} {sent : List String} {email : String} {lastErr : Option String}
    {raw : String} {err : VError}
    (h1 : llm sent.length email = Except.ok raw)
    (h2 : parse_and_validate (braceSlice raw) = Except.error err) :
    classifyLoop llm (fuel + 1) sent email lastErr =
      classifyLoop llm fuel (sent ++ [email]) (repairPrompt (vErrMsg err))
        (some (vErrMsg err)) := by
  simp only [classifyLoop]
  rw [h1]
  simp only []
  rw [h2]

theorem classifyLoop_trace_prefix (llm : Nat → String → Except String String) :
    ∀ (fuel : Nat) (sent : List String) (email : String) (lastErr : Option String),
      ∃ rest, (classifyLoop llm fuel sent email lastErr).1 = sent ++ rest := by
  intro fuel
  induction fuel with
  | zero => exact fun sent email lastErr => ⟨[], by simp [classifyLoop_zero]⟩
  | succ fuel ih =>
    intro sent email lastErr
    cases hllm : llm sent.length email with
    | error e => exact ⟨[email], by rw [classifyLoop_model_err hllm]⟩
    | ok raw =>
      cases hpv : parse_and_validate (braceSlice raw) with
      | ok v => exact ⟨[email], by rw [classifyLoop_ok hllm hpv]⟩
      | error err =>
        obtain ⟨rest, hrest⟩ :=
          ih (sent ++ [email]) (repairPrompt (vErrMsg err)) (some (vErrMsg err))
        exact ⟨[email] ++ rest, by rw [classifyLoop_retry hllm hpv, hrest, List.append_assoc]⟩

theorem classifyLoop_trace_snoc (llm : Nat → String → Except String String)
    (fuel : Nat) (sent : List String) (email : String) (lastErr : Option String)
    (hfuel : 1 ≤ fuel) :
    ∃ rest, (classifyLoop llm fuel sent email lastErr).1 = sent ++ email :: rest := by
  cases fuel with
  | zero => omega
  | succ fuel =>
    cases hllm : llm sent.length email with
    | error e => exact ⟨[], by rw [classifyLoop_model_err hllm]⟩
    | ok raw =>
      cases hpv : parse_and_validate (braceSlice raw) with
      | ok v => exact ⟨[], by rw [classifyLoop_ok hllm hpv]⟩
      | error err =>
        obtain ⟨rest, hrest⟩ := classifyLoop_trace_prefix llm fuel (sent ++ [email])
          (repairPrompt (vErrMsg err)) (some (vErrMsg err))
        refine ⟨rest, ?_⟩
        rw [classifyLoop_retry hllm hpv, hrest, List.append_assoc]
        rfl

theorem classifyLoop_trace_len_le (llm : Nat → String → Except String String) :
    ∀ (fuel : Nat) (sent : List String) (email : String) (lastErr : Option String),
      (classifyLoop llm fuel sent email lastErr).1.length ≤ sent.length + fuel := by
  intro fuel
  induction fuel with
  | zero => intro sent email lastErr; simp [classifyLoop_zero]
  | succ fuel ih =>
    intro sent email lastErr
    cases hllm : llm sent.length email with
    | error e => rw [classifyLoop_model_err hllm]; simp
    | ok raw =>
      cases hpv : parse_and_validate (braceSlice raw) with
      | ok v => rw [classifyLoop_ok hllm hpv]; simp
      | error err =>
        rw [classifyLoop_retry hllm hpv]
        have := ih (sent ++ [email]) (repairPrompt (vErrMsg err)) (some (vErrMsg err))
        simp at this ⊢
        omega

theorem classifyLoop_ok_source (llm : Nat → String → Except String String) :
    ∀ (fuel : Nat) (sent : List String) (email : String) (lastErr : Option String) (v : Json),
      (classifyLoop llm fuel sent email lastErr).2 = Except.ok v →
      ∃ raw, parse_and_validate (braceSlice raw) = Except.ok v := by
  intro fuel
  induction fuel with
  | zero =>
    intro sent email lastErr v h
    rw [classifyLoop_zero] at h
    exact Except.noConfusion h
  | succ fuel ih =>
    intro sent email lastErr v h
    cases hllm : llm sent.length email with
    | error e =>
      rw [classifyLoop_model_err hllm] at h
      exact Except.noConfusion h
    | ok raw =>
      cases hpv : parse_and_validate (braceSlice raw) with
      | ok w =>
        rw [classifyLoop_ok hllm hpv] at h
        simp only [] at h
        injection h with hw
        exact ⟨raw, by rw [hpv, hw]⟩
      | error err =>
        rw [classifyLoop_retry hllm hpv] at h
        exact ih _ _ _ _ h

theorem classifyLoop_exhaust (llm : Nat → String → Except String String)
    (H : ∀ k p, ∃ out e, llm k p = Except.ok out ∧
      parse_and_validate (braceSlice out) = Except.error e) :
    ∀ (fuel : Nat) (sent : List String) (email : String) (lastErr : Option String),
      (classifyLoop llm (fuel + 1) sent email lastErr).1.length = sent.length + (fuel + 1) ∧
      ∃ p raw e,
        (classifyLoop llm (fuel + 1) sent email lastErr).1.getLast? = some p ∧
        llm (sent.length + fuel) p = Except.ok raw ∧
        parse_and_validate (braceSlice raw) = Except.error e ∧
        (classifyLoop llm (fuel + 1) sent email lastErr).2 =
          Except.error (ClassifyError.exhausted (vErrMsg e)) := by
  intro fuel
  induction fuel with
  | zero =>
    intro sent email lastErr
    obtain ⟨out, e, hllm, hpv⟩ := H sent.length email
    rw [classifyLoop_retry hllm hpv, classifyLoop_zero]
    refine ⟨by simp, email, out, e, by simp, by simpa using hllm, hpv, rfl⟩
  | succ fuel ih =>
    intro sent email lastErr
    obtain ⟨out, e, hllm, hpv⟩ := H sent.length email
    rw [classifyLoop_retry hllm hpv]
    obtain ⟨hlen, p, raw, e2, hlast, hllm2, hpv2, hout⟩ :=
      ih (sent ++ [email]) (repairPrompt (vErrMsg e)) (some (vErrMsg e))
    refine ⟨by rw [hlen]; simp; omega, p, raw, e2, hlast, ?_, hpv2, hout⟩
    have : (sent ++ [email]).length + fuel = sent.length + (fuel + 1) := by simp; omega
    rwa [this] at hllm2

/-! ## C2 -/

/-- C2: for every model oracle and budget `n`, `classify_customer_email` makes
at most `n + 1` model calls; and when every attempt output fails validation, it
makes exactly `n + 1` calls and fails with the exhausted-retries error carrying
the last violation message (so no further call is possible). -/
theorem C2_retry_budget :
    ∀ (llm : Nat → String → Except String String) (email : String) (n : Nat),
      (classify_customer_email llm email n).1.length ≤ n + 1 ∧
      ((∀ k p, ∃ out e, llm k p = Except.ok out ∧
          parse_and_validate (braceSlice out) = Except.error e) →
        (classify_customer_email llm email n).1.length = n + 1 ∧
        ∃ p raw e,
          (classify_customer_email llm email n).1.getLast? = some p ∧
          llm n p = Except.ok raw ∧
          parse_and_validate (braceSlice raw) = Except.error e ∧
          (classify_customer_email llm email n).2 =
            Except.error (ClassifyError.exhausted (vErrMsg e))) := by
  intro llm email n
  constructor
  · have := classifyLoop_trace_len_le llm (n + 1) [] email none
    simpa [classify_customer_email] using this
  · intro H
    obtain ⟨hlen, p, raw, e, hlast, hllm, hpv, hout⟩ :=
      classifyLoop_exhaust llm H n [] email none
    refine ⟨by simpa [classify_customer_email] using hlen,
      p, raw, e, hlast, by simpa using hllm, hpv, hout⟩

/-- C2 witness: a model that always answers the non-JSON text `bad`, with
budget 2, yields exactly 3 calls and the exhausted error with the last
(not-parseable) violation message. -/
theorem C2_witness :
    (classify_customer_email (fun _ _ => Except.ok "bad") "hello" 2).1.length = 3 ∧
    (classify_customer_email (fun _ _ => Except.ok "bad") "hello" 2).2 =
      Except.error (ClassifyError.exhausted "Output is not valid JSON") := by
  obtain ⟨hlen, p, raw, e, hlast, hllm, hpv, hout⟩ :=
    (C2_retry_budget (fun _ _ => Except.ok "bad") "hello" 2).2
      (fun k p => ⟨"bad", VError.notParseable, rfl, rfl⟩)
  refine ⟨hlen, ?_⟩
  have hraw : raw = "bad" := by
    have h2 : Except.ok (ε := String) "bad" = Except.ok raw := hllm
    injection h2 with h3
    exact h3.symm
  subst hraw
  have h4 : parse_and_validate (braceSlice "bad") = Except.error VError.notParseable := rfl
  rw [h4] at hpv
  injection hpv with h5
  rw [hout, ← h5]
  rfl

/-! ## C3 -/

/-- C3: whenever an attempt validates, the loop returns that payload
immediately with no further model call; whenever an attempt fails with budget
remaining, the next call's user text is exactly the repair instruction built
from the violation message; hence a model invalid on attempt 1 and valid on
attempt 2 yields, with budget 2, the accepted payload after exactly 2 calls,
and the second call's prompt contains the first violation's reason text. -/
theorem C3_accept_and_repair :
    (∀ (llm : Nat → String → Except String String) (fuel : Nat) (sent : List String)
        (email : String) (lastErr : Option String) (raw : String) (v : Json),
      llm sent.length email = Except.ok raw →
      parse_and_validate (braceSlice raw) = Except.ok v →
      classifyLoop llm (fuel + 1) sent email lastErr = (sent ++ [email], Except.ok v)) ∧
    (∀ (llm : Nat → String → Except String String) (fuel : Nat) (sent : List String)
        (email : String) (lastErr : Option String) (raw : String) (err : VError),
      llm sent.length email = Except.ok raw →
      parse_and_validate (braceSlice raw) = Except.error err →
      classifyLoop llm (fuel + 1) sent email lastErr =
        classifyLoop llm fuel (sent ++ [email]) (repairPrompt (vErrMsg err))
          (some (vErrMsg err))) ∧
    (∀ (llm : Nat → String → Except String String) (email : String)
        (out0 : String) (err0 : VError) (out1 : String) (v : Json),
      llm 0 email = Except.ok out0 →
      parse_and_validate (braceSlice out0) = Except.error err0 →
      llm 1 (repairPrompt (vErrMsg err0)) = Except.ok out1 →
      parse_and_validate (braceSlice out1) = Except.ok v →
      classify_customer_email llm email 2 =
        ([email, repairPrompt (vErrMsg err0)], Except.ok v) ∧
      ∃ a b, repairPrompt (vErrMsg err0) = a ++ vErrMsg err0 ++ b) := by
  refine ⟨fun llm fuel sent email lastErr raw v h1 h2 => classifyLoop_ok h1 h2,
    fun llm fuel sent email lastErr raw err h1 h2 => classifyLoop_retry h1 h2, ?_⟩
  intro llm email out0 err0 out1 v h1 h2 h3 h4
  constructor
  · show classifyLoop llm 3 [] email none = _
    rw [classifyLoop_retry (by simpa using h1) h2,
      classifyLoop_ok (by simpa using h3) h4]
    rfl
  · exact ⟨"你的上一個輸出不符合 schema，錯誤原因：", "\n請修正並僅輸出合法 JSON。", rfl⟩

/-- C3 witness: a concrete model giving a non-JSON first answer and a
conforming second answer reaches the accepted payload in exactly 2 calls, the
second prompt being the repair instruction for the first violation. -/
theorem C3_witness :
    classify_customer_email
        (fun k _ => if k = 0 then Except.ok "bad"
          else Except.ok "\x7b\"category\": \"其他\", \"urgency\": \"low\", \"summary\": \"ok\"\x7d")
        "hello" 2 =
      (["hello", repairPrompt (vErrMsg VError.notParseable)],
        Except.ok (Json.obj [("category", Json.str "其他"), ("urgency", Json.str "low"),
          ("summary", Json.str "ok")])) ∧
    ∃ a b, repairPrompt (vErrMsg VError.notParseable) =
      a ++ vErrMsg VError.notParseable ++ b :=
  C3_accept_and_repair.2.2 _ "hello" "bad" VError.notParseable
    "\x7b\"category\": \"其他\", \"urgency\": \"low\", \"summary\": \"ok\"\x7d"
    (Json.obj [("category", Json.str "其他"), ("urgency", Json.str "low"),
      ("summary", Json.str "ok")]) rfl rfl rfl rfl

/-! ## C4 -/

theorem pv_ok_keys {t : String} {v : Json} (h : parse_and_validate t = Except.ok v) :
    ∃ kvs, v = Json.obj kvs ∧ (∀ k, k ∈ kvs.map Prod.fst ↔ k ∈ requiredKeys) := by
  rw [parse_and_validate] at h
  cases hparse : jsonParse t with
  | none => rw [hparse] at h; exact Except.noConfusion h
  | some j =>
    rw [hparse] at h
    obtain ⟨kvs, hj, h1, h2, h3, h4, hv⟩ := validate_ok_iff.mp h
    obtain ⟨hmemK, -, -, -⟩ := checks_iff_specAccepts.mp ⟨h1, h2, h3, h4⟩
    exact ⟨kvs, hv, hmemK⟩

/-- C4: every accepted payload of `parse_and_validate` — and hence every
successful result of `classify_customer_email` — is a mapping whose key set is
exactly the contract's required fields, with no extra and no missing key. -/
theorem C4_accepted_keys :
    (∀ (t : String) (v : Json), parse_and_validate t = Except.ok v →
      ∃ kvs, v = Json.obj kvs ∧ (∀ k, k ∈ kvs.map Prod.fst ↔ k ∈ requiredKeys)) ∧
    (∀ (llm : Nat → String → Except String String) (email : String) (n : Nat)
        (tr : List String) (v : Json),
      classify_customer_email llm email n = (tr, Except.ok v) →
      ∃ kvs, v = Json.obj kvs ∧ (∀ k, k ∈ kvs.map Prod.fst ↔ k ∈ requiredKeys)) := by
  refine ⟨fun t v h => pv_ok_keys h, ?_⟩
  intro llm email n tr v h
  have h2 : (classify_customer_email llm email n).2 = Except.ok v := by rw [h]
  obtain ⟨raw, hraw⟩ := classifyLoop_ok_source llm (n + 1) [] email none v h2
  exact pv_ok_keys hraw

/-- C4 witness: the key-set invariant at a concrete accepted payload. -/
theorem C4_witness :
    ∃ kvs,
      Json.obj [("category", Json.str "其他"), ("urgency", Json.str "low"),
        ("summary", Json.str "ok")] = Json.obj kvs ∧
      (∀ k, k ∈ kvs.map Prod.fst ↔ k ∈ requiredKeys) :=
  C4_accepted_keys.1
    "\x7b\"category\": \"其他\", \"urgency\": \"low\", \"summary\": \"ok\"\x7d"
    (Json.obj [("category", Json.str "其他"), ("urgency", Json.str "low"),
      ("summary", Json.str "ok")]) rfl

/-! ## C9 -/

/-- C9: every validation failure of an attempt — of any of the error kinds the
embedding distinguishes, including the uncategorized keys attribute error from
a non-mapping candidate such as a JSON array — is caught and turned into the
next call's repair prompt, which contains that error's message text; the loop
retries instead of propagating the error. -/
theorem C9_all_errors_repaired :
    ∀ (llm : Nat → String → Except String String) (email : String) (n : Nat)
      (raw : String) (e : VError),
      1 ≤ n →
      llm 0 email = Except.ok raw →
      parse_and_validate (braceSlice raw) = Except.error e →
      (classify_customer_email llm email n).1[1]? = some (repairPrompt (vErrMsg e)) ∧
      ∃ a b, repairPrompt (vErrMsg e) = a ++ vErrMsg e ++ b := by
  intro llm email n raw e hn h1 h2
  constructor
  · show (classifyLoop llm (n + 1) [] email none).1[1]? = _
    rw [classifyLoop_retry (by simpa using h1) h2]
    obtain ⟨rest, hrest⟩ := classifyLoop_trace_snoc llm n ([] ++ [email])
      (repairPrompt (vErrMsg e)) (some (vErrMsg e)) hn
    rw [hrest]
    simp
  · exact ⟨"你的上一個輸出不符合 schema，錯誤原因：", "\n請修正並僅輸出合法 JSON。", rfl⟩

/-- C9 witness: a candidate that decodes to a JSON array (not a mapping) is
caught and fed back as a repair prompt carrying the attribute-error message. -/
theorem C9_witness :
    (classify_customer_email (fun _ _ => Except.ok "[1, 2]") "mail" 2).1[1]? =
      some (repairPrompt (vErrMsg (VError.attrNoKeys "list"))) ∧
    ∃ a b, repairPrompt (vErrMsg (VError.attrNoKeys "list")) =
      a ++ vErrMsg (VError.attrNoKeys "list") ++ b :=
  C9_all_errors_repaired (fun _ _ => Except.ok "[1, 2]") "mail" 2 "[1, 2]"
    (VError.attrNoKeys "list") (by omega) rfl rfl

/-! ## C10 -/

/-- C10: an error raised by the model call itself is not caught by the loop
body: at any loop state and any remaining budget it ends the run immediately
with a model-error outcome (never the exhausted-retries error), after the
failing call and with no repair attempt consumed; in particular a first-call
failure surfaces after exactly one call whatever the budget. -/
theorem C10_model_error_uncaught :
    (∀ (llm : Nat → String → Except String String) (fuel : Nat) (sent : List String)
        (email : String) (lastErr : Option String) (e : String),
      llm sent.length email = Except.error e →
      classifyLoop llm (fuel + 1) sent email lastErr =
        (sent ++ [email], Except.error (ClassifyError.modelError e))) ∧
    (∀ (llm : Nat → String → Except String String) (email : String) (n : Nat) (e : String),
      llm 0 email = Except.error e →
      classify_customer_email llm email n =
        ([email], Except.error (ClassifyError.modelError e))) := by
  refine ⟨fun llm fuel sent email lastErr e h => classifyLoop_model_err h, ?_⟩
  intro llm email n e h
  show classifyLoop llm (n + 1) [] email none = _
  rw [classifyLoop_model_err (by simpa using h)]
  rfl

/-- C10 witness: a model that raises on the first call makes the run fail with
that error after exactly one call, even with budget 5. -/
theorem C10_witness :
    classify_customer_email (fun _ _ => Except.error "boom") "hi" 5 =
      (["hi"], Except.error (ClassifyError.modelError "boom")) :=
  C10_model_error_uncaught.2 (fun _ _ => Except.error "boom") "hi" 5 "boom" rfl

/-! ## C5 -/

theorem rfindChar_eq_none {c : Char} {cs : List Char} : rfindChar c cs = none ↔ c ∉ cs := by
  simp [rfindChar, Option.map_eq_none', findChar_eq_none, List.mem_reverse]

/-- C5 (amended): for a text decomposing as prose, then a brace-delimited
block, then prose, where the leading prose contains no opening brace and the
trailing prose contains no closing brace, the slicing step returns exactly the
block — the inclusive substring from the first opening brace to the last
closing brace. -/
theorem C5_extraction :
    ∀ pre mid post : List Char, '{' ∉ pre → '}' ∉ post →
      braceSlice (String.mk (pre ++ ('{' :: (mid ++ ['}'])) ++ post)) =
        String.mk ('{' :: (mid ++ ['}'])) := by
  intro pre mid post hpre hpost
  have hT : (String.mk (pre ++ ('{' :: (mid ++ ['}'])) ++ post)).toList
      = pre ++ ('{' :: (mid ++ ['}'])) ++ post := rfl
  simp only [braceSlice, hT]
  have hfind : findChar '{' (pre ++ ('{' :: (mid ++ ['}'])) ++ post) = some pre.length := by
    rw [List.append_assoc, findChar_append_not_mem pre _ hpre]
    have hc : ('{' :: (mid ++ ['}'])) ++ post = '{' :: ((mid ++ ['}']) ++ post) := rfl
    rw [hc, findChar_cons_self]
    simp
  have hrev : (pre ++ ('{' :: (mid ++ ['}'])) ++ post).reverse
      = post.reverse ++ ('}' :: (mid.reverse ++ ('{' :: pre.reverse))) := by
    simp
  have hfr : findChar '}' ((pre ++ ('{' :: (mid ++ ['}'])) ++ post).reverse)
      = some post.length := by
    rw [hrev, findChar_append_not_mem post.reverse _ (by simpa using hpost),
      findChar_cons_self]
    simp
  have hrfind : rfindChar '}' (pre ++ ('{' :: (mid ++ ['}'])) ++ post)
      = some (pre.length + mid.length + 1) := by
    rw [rfindChar, hfr]
    have hlen : (pre ++ ('{' :: (mid ++ ['}'])) ++ post).length
        = pre.length + mid.length + 2 + post.length := by
      simp
      omega
    rw [Option.map_some']
    rw [hlen]
    have : pre.length + mid.length + 2 + post.length - 1 - post.length
        = pre.length + mid.length + 1 := by omega
    rw [this]
  rw [hfind, hrfind]
  show String.mk (List.take (pre.length + mid.length + 1 + 1 - pre.length)
      (List.drop pre.length (pre ++ ('{' :: (mid ++ ['}'])) ++ post)))
    = String.mk ('{' :: (mid ++ ['}']))
  congr 1
  have harith : pre.length + mid.length + 1 + 1 - pre.length = mid.length + 2 := by omega
  rw [harith, List.append_assoc]
  have hdrop : List.drop pre.length (pre ++ (('{' :: (mid ++ ['}'])) ++ post))
      = ('{' :: (mid ++ ['}'])) ++ post := by simp
  rw [hdrop]
  have hblen : ('{' :: (mid ++ ['}'])).length = mid.length + 2 := by simp
  rw [← hblen]
  exact List.take_left _ _

/-- C5 counterexample: the text `a{b {"x": 1}` contains exactly one well-formed
brace-delimited object, `{"x": 1}`, with prose around it, but the slicing step
returns the over-captured span `{b {"x": 1}` from the stray first opening brace
— not the object's text (the returned span is not even well-formed). -/
theorem C5_counterexample :
    jsonParse "\x7b\"x\": 1\x7d" = some (Json.obj [("x", Json.num "1")]) ∧
    "a\x7bb \x7b\"x\": 1\x7d" = "a\x7bb " ++ "\x7b\"x\": 1\x7d" ++ "" ∧
    braceSlice "a\x7bb \x7b\"x\": 1\x7d" = "\x7bb \x7b\"x\": 1\x7d" ∧
    braceSlice "a\x7bb \x7b\"x\": 1\x7d" ≠ "\x7b\"x\": 1\x7d" ∧
    jsonParse "\x7bb \x7b\"x\": 1\x7d" = none := by
  refine ⟨rfl, rfl, rfl, ?_, rfl⟩
  rw [show braceSlice "a\x7bb \x7b\"x\": 1\x7d" = "\x7bb \x7b\"x\": 1\x7d" from rfl]
  decide

/-- C5 witness: the amended extraction theorem at the spec's own example
`Sure! {"a": 1} thanks`. -/
theorem C5_witness :
    '{' ∉ ("Sure! ".toList) ∧ '}' ∉ (" thanks".toList) ∧
    braceSlice
        (String.mk ("Sure! ".toList ++ ('{' :: ("\"a\": 1".toList ++ ['}'])) ++ " thanks".toList)) =
      String.mk ('{' :: ("\"a\": 1".toList ++ ['}'])) :=
  ⟨by decide, by decide, C5_extraction _ _ _ (by decide) (by decide)⟩

/-! ## C7 -/

/-- C7 (amended): the first completion (stripped of surrounding whitespace) is
returned as the final answer with zero tool sessions exactly when JSON decoding
of the stripped text fails; when decoding succeeds a tool session is always
created — even for a non-mapping payload or a mapping without a `tool` field,
which then fail with a subscript type error or a missing-key error after the
session is created and with no `call_tool` invocation. -/
theorem C7_dispatch_decision :
    (∀ (llm : List Msg → String) (callTool : Json → Json → Except String String)
        (ui : String),
      jsonParse (pyStrip (llm (firstCallMsgs ui))) = none →
      runAgent llm callTool ui =
        ⟨0, [], none, Except.ok (pyStrip (llm (firstCallMsgs ui)))⟩) ∧
    (∀ (llm : List Msg → String) (callTool : Json → Json → Except String String)
        (ui : String) (j : Json),
      jsonParse (pyStrip (llm (firstCallMsgs ui))) = some j →
      (runAgent llm callTool ui).sessionsCreated = 1) ∧
    (∀ (llm : List Msg → String) (callTool : Json → Json → Except String String)
        (ui : String) (j : Json),
      jsonParse (pyStrip (llm (firstCallMsgs ui))) = some j →
      (∀ kvs, j ≠ Json.obj kvs) →
      runAgent llm callTool ui =
        ⟨1, [], none, Except.error (PyError.typeErrorSub (pyTypeName j))⟩) ∧
    (∀ (llm : List Msg → String) (callTool : Json → Json → Except String String)
        (ui : String) (kvs : List (String × Json)),
      jsonParse (pyStrip (llm (firstCallMsgs ui))) = some (Json.obj kvs) →
      kvs.lookup "tool" = none →
      runAgent llm callTool ui =
        ⟨1, [], none, Except.error (PyError.keyError "tool")⟩) := by
  refine ⟨?_, ?_, ?_, ?_⟩
  · intro llm callTool ui h
    simp only [runAgent]
    rw [h]
  · intro llm callTool ui j h
    cases j with
    | obj kvs =>
      simp only [runAgent]
      rw [h]
      simp only []
      cases htool : kvs.lookup "tool" with
      | none => rfl
      | some name =>
        simp only []
        cases hargs : kvs.lookup "arguments" with
        | none => rfl
        | some args =>
          simp only []
          cases hcall : callTool name args with
          | error e => rfl
          | ok txt => rfl
    | null => simp only [runAgent]; rw [h]
    | bool b => simp only [runAgent]; rw [h]
    | num l => simp only [runAgent]; rw [h]
    | str s => simp only [runAgent]; rw [h]
    | arr es => simp only [runAgent]; rw [h]
  · intro llm callTool ui j h hj
    simp only [runAgent]
    rw [h]
    cases j with
    | obj kvs => exact absurd rfl (hj kvs)
    | null => rfl
    | bool b => rfl
    | num l => rfl
    | str s => rfl
    | arr es => rfl
  · intro llm callTool ui kvs h htool
    simp only [runAgent]
    rw [h]
    simp only []
    rw [htool]

/-- C7 counterexample: a first completion `123` has no brace-delimited content
(so the spec's extractor yields no candidate) and is not a mapping with a
`tool` field, yet `run_agent` does not return it as the final answer: the text
decodes as a JSON number, a tool session is created, and the turn fails with a
subscript type error. -/
theorem C7_counterexample :
    findChar '{' ("123".toList) = none ∧
    jsonParse (pyStrip "123") = some (Json.num "123") ∧
    (runAgent (fun _ => "123") (fun _ _ => Except.ok "r") "hi").sessionsCreated = 1 ∧
    (runAgent (fun _ => "123") (fun _ _ => Except.ok "r") "hi").outcome =
      Except.error (PyError.typeErrorSub "int") ∧
    (runAgent (fun _ => "123") (fun _ _ => Except.ok "r") "hi").outcome ≠
      Except.ok "123" := by
  refine ⟨rfl, rfl, rfl, rfl, ?_⟩
  rw [show (runAgent (fun _ => "123") (fun _ _ => Except.ok "r") "hi").outcome =
    Except.error (PyError.typeErrorSub "int") from rfl]
  simp

/-- C7 witness: a plain-text completion fails to decode and is returned
stripped, with zero sessions. -/
theorem C7_witness :
    jsonParse (pyStrip ((fun (_ : List Msg) => " hello there ") (firstCallMsgs "hi"))) = none ∧
    runAgent (fun _ => " hello there ") (fun _ _ => Except.ok "r") "hi" =
      ⟨0, [], none, Except.ok (pyStrip ((fun (_ : List Msg) => " hello there ") (firstCallMsgs "hi")))⟩ :=
  ⟨rfl, C7_dispatch_decision.1 (fun _ => " hello there ") (fun _ _ => Except.ok "r") "hi" rfl⟩

/-! ## C8 -/

/-- C8 (amended): when the first completion decodes to a mapping carrying both
a `tool` field and an `arguments` field, exactly one `call_tool` invocation
occurs, with the payload's tool name and arguments taken as they are (no check
that the tool exists or that the arguments fit any signature), and on success
the second model call's context is the fixed system turn, the original user
turn, an assistant turn with the raw (stripped) payload text, and a tool-role
turn equal to the tool result text, the reply being the final answer; a tool
error propagates after that single invocation; a mapping with a `tool` field
but no `arguments` field fails with a missing-key error and zero
invocations. -/
theorem C8_tool_invocation :
    (∀ (llm : List Msg → String) (callTool : Json → Json → Except String String)
        (ui : String) (kvs : List (String × Json)) (name args : Json) (txt : String),
      jsonParse (pyStrip (llm (firstCallMsgs ui))) = some (Json.obj kvs) →
      kvs.lookup "tool" = some name →
      kvs.lookup "arguments" = some args →
      callTool name args = Except.ok txt →
      runAgent llm callTool ui =
        ⟨1, [(name, args)],
          some (secondCallMsgs ui (pyStrip (llm (firstCallMsgs ui))) txt),
          Except.ok (llm (secondCallMsgs ui (pyStrip (llm (firstCallMsgs ui))) txt))⟩) ∧
    (∀ (llm : List Msg → String) (callTool : Json → Json → Except String String)
        (ui : String) (kvs : List (String × Json)) (name args : Json) (e : String),
      jsonParse (pyStrip (llm (firstCallMsgs ui))) = some (Json.obj kvs) →
      kvs.lookup "tool" = some name →
      kvs.lookup "arguments" = some args →
      callTool name args = Except.error e →
      runAgent llm callTool ui =
        ⟨1, [(name, args)], none, Except.error (PyError.toolError e)⟩) ∧
    (∀ (llm : List Msg → String) (callTool : Json → Json → Except String String)
        (ui : String) (kvs : List (String × Json)) (name : Json),
      jsonParse (pyStrip (llm (firstCallMsgs ui))) = some (Json.obj kvs) →
      kvs.lookup "tool" = some name →
      kvs.lookup "arguments" = none →
      runAgent llm callTool ui =
        ⟨1, [], none, Except.error (PyError.keyError "arguments")⟩) := by
  refine ⟨?_, ?_, ?_⟩
  · intro llm callTool ui kvs name args txt h htool hargs hcall
    simp only [runAgent]
    rw [h]
    simp only []
    rw [htool]
    simp only []
    rw [hargs]
    simp only []
    rw [hcall]
  · intro llm callTool ui kvs name args e h htool hargs hcall
    simp only [runAgent]
    rw [h]
    simp only []
    rw [htool]
    simp only []
    rw [hargs]
    simp only []
    rw [hcall]
  · intro llm callTool ui kvs name h htool hargs
    simp only [runAgent]
    rw [h]
    simp only []
    rw [htool]
    simp only []
    rw [hargs]

/-- C8 counterexample: the completion `{"tool": "x"}` decodes to a mapping with
a `tool` field, yet no `call_tool` invocation occurs — the turn dies on the
missing `arguments` key — contradicting the claim that a `tool`-carrying
mapping yields exactly one invocation. -/
theorem C8_counterexample :
    jsonParse (pyStrip "\x7b\"tool\": \"x\"\x7d") = some (Json.obj [("tool", Json.str "x")]) ∧
    List.lookup "tool" [("tool", Json.str "x")] = some (Json.str "x") ∧
    (runAgent (fun _ => "\x7b\"tool\": \"x\"\x7d") (fun _ _ => Except.ok "r") "hi").toolCalls
      = [] ∧
    (runAgent (fun _ => "\x7b\"tool\": \"x\"\x7d") (fun _ _ => Except.ok "r") "hi").toolCalls.length
      ≠ 1 ∧
    (runAgent (fun _ => "\x7b\"tool\": \"x\"\x7d") (fun _ _ => Except.ok "r") "hi").outcome =
      Except.error (PyError.keyError "arguments") := by
  refine ⟨rfl, rfl, rfl, ?_, rfl⟩
  rw [show (runAgent (fun _ => "\x7b\"tool\": \"x\"\x7d") (fun _ _ => Except.ok "r") "hi").toolCalls
    = [] from rfl]
  simp

/-- C8 witness: a complete tool-path run on a concrete payload: exactly one
invocation with the payload's own name and arguments, and the second call's
context carrying the tool-role turn with the tool result. -/
theorem C8_witness :
    runAgent
        (fun msgs => if msgs.length = 2
          then "\x7b\"tool\": \"get_forecast\", \"arguments\": \x7b\"latitude\": 38.9\x7d\x7d"
          else "sunny tomorrow")
        (fun _ _ => Except.ok "forecast data") "weather?" =
      ⟨1, [(Json.str "get_forecast", Json.obj [("latitude", Json.num "38.9")])],
        some (secondCallMsgs "weather?"
          (pyStrip "\x7b\"tool\": \"get_forecast\", \"arguments\": \x7b\"latitude\": 38.9\x7d\x7d")
          "forecast data"),
        Except.ok "sunny tomorrow"⟩ := by
  have h := C8_tool_invocation.1
    (fun msgs => if msgs.length = 2
      then "\x7b\"tool\": \"get_forecast\", \"arguments\": \x7b\"latitude\": 38.9\x7d\x7d"
      else "sunny tomorrow")
    (fun _ _ => Except.ok "forecast data") "weather?"
    [("tool", Json.str "get_forecast"),
      ("arguments", Json.obj [("latitude", Json.num "38.9")])]
    (Json.str "get_forecast") (Json.obj [("latitude", Json.num "38.9")])
    "forecast data" rfl rfl rfl rfl
  rw [h]
  rfl

/-! ## Consumption lemmas for the JSON parser (towards C6) -/

theorem skipWs_suffix : ∀ cs : List Char, skipWs cs <:+ cs := by
  intro cs
  induction cs using skipWs.induct with
  | case1 => exact List.suffix_refl []
  | case2 c cs hw ih =>
    rw [skipWs, if_pos hw]
    exact ih.trans (List.suffix_cons c cs)
  | case3 c cs hw =>
    rw [skipWs, if_neg hw]

theorem suffix_through_skipWs {cs rest : List Char} (pre : List Char)
    (h : skipWs cs = pre ++ rest) : rest <:+ cs := by
  have h1 : rest <:+ skipWs cs := by
    rw [h]
    exact List.suffix_append pre rest
  exact h1.trans (skipWs_suffix cs)

theorem digits_suffix : ∀ cs : List Char, (digits cs).2 <:+ cs := by
  intro cs
  induction cs using digits.induct with
  | case1 => exact List.suffix_refl []
  | case2 c cs hd ih =>
    rw [digits, if_pos hd]
    exact ih.trans (List.suffix_cons c cs)
  | case3 c cs hd =>
    rw [digits, if_neg hd]

theorem pFrac_suffix {s o r : List Char} (h : pFrac s = some (o, r)) : r <:+ s := by
  rw [pFrac.eq_def] at h
  split at h
  · rename_i rs
    split at h
    · exact Option.noConfusion h
    · injection h with hp
      injection hp with h1 h2
      subst h2
      exact (digits_suffix rs).trans (List.suffix_cons '.' rs)
  · injection h with hp
    injection hp with h1 h2
    subst h2
    exact List.suffix_refl _

theorem pExp_suffix {s o r : List Char} (h : pExp s = some (o, r)) : r <:+ s := by
  rw [pExp.eq_def] at h
  split at h
  · rename_i c rs
    split at h
    · split at h
      · rename_i r2
        split at h
        · exact Option.noConfusion h
        · injection h with hp
          injection hp with h1 h2
          subst h2
          exact ((digits_suffix r2).trans (List.suffix_cons '+' r2)).trans
            (List.suffix_cons c _)
      · rename_i r2
        split at h
        · exact Option.noConfusion h
        · injection h with hp
          injection hp with h1 h2
          subst h2
          exact ((digits_suffix r2).trans (List.suffix_cons '-' r2)).trans
            (List.suffix_cons c _)
      · split at h
        · exact Option.noConfusion h
        · injection h with hp
          injection hp with h1 h2
          subst h2
          exact (digits_suffix rs).trans (List.suffix_cons c rs)
    · injection h with hp
      injection hp with h1 h2
      subst h2
      exact List.suffix_refl _
  · injection h with hp
    injection hp with h1 h2
    subst h2
    exact List.suffix_refl _

theorem pNumCore_suffix {neg s1 o r : List Char} (h : pNumCore neg s1 = some (o, r)) :
    r <:+ s1 := by
  unfold pNumCore at h
  split at h
  · exact Option.noConfusion h
  · split at h
    · exact Option.noConfusion h
    · split at h
      · exact Option.noConfusion h
      · rename_i fr s3 hfr
        split at h
        · exact Option.noConfusion h
        · rename_i ex s4 hex
          injection h with hp
          injection hp with h1 h2
          subst h2
          exact ((pExp_suffix hex).trans (pFrac_suffix hfr)).trans (digits_suffix s1)

theorem pNum_suffix {s o r : List Char} (h : pNum s = some (o, r)) : r <:+ s := by
  rw [pNum.eq_def] at h
  split at h
  · rename_i rs
    exact (pNumCore_suffix h).trans (List.suffix_cons '-' rs)
  · exact pNumCore_suffix h


theorem escParse_suffix {cs : List Char} {ch : Char} {rest : List Char}
    (h : escParse cs = some (ch, rest)) : rest <:+ cs := by
  rw [escParse.eq_def] at h
  split at h
  · exact Option.noConfusion h
  · rename_i e cs2
    split at h
    · injection h with hp
      injection hp with h1 h2
      subst h2
      exact List.suffix_cons e cs2
    · split at h
      · split at h
        · exact Option.noConfusion h
        · rename_i h1 t1
          split at h
          · exact Option.noConfusion h
          · rename_i h2c t2
            split at h
            · exact Option.noConfusion h
            · rename_i h3 t3
              split at h
              · exact Option.noConfusion h
              · rename_i h4 cs3
                split at h
                · injection h with hp
                  injection hp with hx hy
                  subst hy
                  refine (List.suffix_cons h4 cs3).trans ?_
                  refine (List.suffix_cons h3 _).trans ?_
                  refine (List.suffix_cons h2c _).trans ?_
                  refine (List.suffix_cons h1 _).trans ?_
                  exact List.suffix_cons e _
                · exact Option.noConfusion h
      · exact Option.noConfusion h

theorem pStrL_suffix : ∀ (fuel : Nat) (cs o r : List Char),
    pStrL fuel cs = some (o, r) → r <:+ cs := by
  intro fuel
  induction fuel with
  | zero => intro cs o r h; exact Option.noConfusion h
  | succ fuel ih =>
    intro cs o r h
    cases cs with
    | nil => exact Option.noConfusion h
    | cons c cs =>
      simp only [pStrL] at h
      split at h
      · injection h with hp
        injection hp with h1 h2
        subst h2
        exact List.suffix_cons _ _
      · split at h
        · split at h
          · exact Option.noConfusion h
          · rename_i ch rest heq
            rw [Option.map_eq_some'] at h
            obtain ⟨⟨p1, p2⟩, hp, hpr⟩ := h
            injection hpr with h1 h2
            subst h2
            exact ((ih rest p1 p2 hp).trans (escParse_suffix heq)).trans
              (List.suffix_cons c cs)
        · split at h
          · exact Option.noConfusion h
          · rw [Option.map_eq_some'] at h
            obtain ⟨⟨p1, p2⟩, hp, hpr⟩ := h
            injection hpr with h1 h2
            subst h2
            exact (ih cs p1 p2 hp).trans (List.suffix_cons c cs)

theorem pJ_suffix : ∀ (fuel : Nat) (m : PM) (cs : List Char) (v : Json) (r : List Char),
    pJ fuel m cs = some (v, r) → r <:+ cs := by
  intro fuel
  induction fuel with
  | zero => intro m cs v r h; exact Option.noConfusion h
  | succ fuel ih =>
    intro m cs v r h
    cases m with
    | val =>
      simp only [pJ] at h
      split at h
      · rename_i cs2 heq
        injection h with hp
        injection hp with h1 h2
        subst h2
        exact suffix_through_skipWs ['n', 'u', 'l', 'l'] heq
      · rename_i cs2 heq
        injection h with hp
        injection hp with h1 h2
        subst h2
        exact suffix_through_skipWs ['t', 'r', 'u', 'e'] heq
      · rename_i cs2 heq
        injection h with hp
        injection hp with h1 h2
        subst h2
        exact suffix_through_skipWs ['f', 'a', 'l', 's', 'e'] heq
      · rename_i cs2 heq
        rw [Option.map_eq_some'] at h
        obtain ⟨⟨p1, p2⟩, hp, hpr⟩ := h
        injection hpr with h1 h2
        subst h2
        exact (pStrL_suffix cs2.length cs2 p1 p2 hp).trans
          (suffix_through_skipWs ['"'] heq)
      · rename_i cs2 heq
        split at h
        · rename_i cs3 heq2
          injection h with hp
          injection hp with h1 h2
          subst h2
          exact (suffix_through_skipWs [']'] heq2).trans
            (suffix_through_skipWs ['['] heq)
        · have hr := ih (PM.arrItems []) (skipWs cs2) v r h
          exact (hr.trans (skipWs_suffix cs2)).trans (suffix_through_skipWs ['['] heq)
      · rename_i cs2 heq
        split at h
        · rename_i cs3 heq2
          injection h with hp
          injection hp with h1 h2
          subst h2
          exact (suffix_through_skipWs ['}'] heq2).trans
            (suffix_through_skipWs ['{'] heq)
        · have hr := ih (PM.objItems []) (skipWs cs2) v r h
          exact (hr.trans (skipWs_suffix cs2)).trans (suffix_through_skipWs ['{'] heq)
      · rw [Option.map_eq_some'] at h
        obtain ⟨⟨p1, p2⟩, hp, hpr⟩ := h
        injection hpr with h1 h2
        subst h2
        exact (pNum_suffix hp).trans (skipWs_suffix cs)
    | arrItems acc =>
      simp only [pJ] at h
      split at h
      · exact Option.noConfusion h
      · rename_i v2 r2 heq
        split at h
        · rename_i r3 heq2
          have h1 := ih (PM.arrItems (acc ++ [v2])) r3 v r h
          have h2 := suffix_through_skipWs [','] heq2
          have h3 := ih PM.val cs v2 r2 heq
          exact ((h1.trans h2).trans h3)
        · rename_i r3 heq2
          injection h with hp
          injection hp with h1 h2
          subst h2
          exact (suffix_through_skipWs [']'] heq2).trans (ih PM.val cs v2 r2 heq)
        · exact Option.noConfusion h
    | objItems acc =>
      simp only [pJ] at h
      split at h
      · rename_i cs1 heq1
        split at h
        · exact Option.noConfusion h
        · rename_i kcs r1 heq2
          split at h
          · rename_i r2 heq3
            split at h
            · exact Option.noConfusion h
            · rename_i v2 r3 heq4
              split at h
              · rename_i r4 heq5
                have h1 := ih (PM.objItems (insertKV acc (String.mk kcs) v2)) r4 v r h
                have h2 := suffix_through_skipWs [','] heq5
                have h3 := ih PM.val r2 v2 r3 heq4
                have h4 := suffix_through_skipWs [':'] heq3
                have h5 := pStrL_suffix cs1.length cs1 kcs r1 heq2
                have h6 := suffix_through_skipWs ['"'] heq1
                exact ((((h1.trans h2).trans h3).trans h4).trans h5).trans h6
              · rename_i r4 heq5
                injection h with hp
                injection hp with h1 h2
                subst h2
                have h2 := suffix_through_skipWs ['}'] heq5
                have h3 := ih PM.val r2 v2 r3 heq4
                have h4 := suffix_through_skipWs [':'] heq3
                have h5 := pStrL_suffix cs1.length cs1 kcs r1 heq2
                have h6 := suffix_through_skipWs ['"'] heq1
                exact (((h2.trans h3).trans h4).trans h5).trans h6
              · exact Option.noConfusion h
          · exact Option.noConfusion h
      · exact Option.noConfusion h

theorem head_mem_skipWs {cs rest : List Char} {a : Char} (h : skipWs cs = a :: rest) :
    a ∈ cs := by
  apply skipWs_subset cs
  rw [h]
  exact List.mem_cons_self a rest

theorem pJ_shape : ∀ (fuel : Nat) (m : PM) (cs : List Char) (v : Json) (r : List Char),
    pJ fuel m cs = some (v, r) →
    (∀ acc, m = PM.arrItems acc → ∃ l, v = Json.arr l) ∧
    (∀ acc, m = PM.objItems acc → ∃ l, v = Json.obj l) := by
  intro fuel
  induction fuel with
  | zero => intro m cs v r h; exact Option.noConfusion h
  | succ fuel ih =>
    intro m cs v r h
    cases m with
    | val =>
      exact ⟨fun acc heq => PM.noConfusion heq, fun acc heq => PM.noConfusion heq⟩
    | arrItems acc =>
      refine ⟨fun acc2 _ => ?_, fun acc2 heq => PM.noConfusion heq⟩
      simp only [pJ] at h
      split at h
      · exact Option.noConfusion h
      · rename_i v2 r2 heq
        split at h
        · exact ((ih _ _ _ _ h).1 _ rfl)
        · injection h with hp
          injection hp with h1 h2
          exact ⟨acc ++ [v2], h1.symm⟩
        · exact Option.noConfusion h
    | objItems acc =>
      refine ⟨fun acc2 heq => PM.noConfusion heq, fun acc2 _ => ?_⟩
      simp only [pJ] at h
      split at h
      · rename_i cs1 heq1
        split at h
        · exact Option.noConfusion h
        · rename_i kcs r1 heq2
          split at h
          · rename_i r2 heq3
            split at h
            · exact Option.noConfusion h
            · rename_i v2 r3 heq4
              split at h
              · exact ((ih _ _ _ _ h).2 _ rfl)
              · injection h with hp
                injection hp with h1 h2
                exact ⟨insertKV acc (String.mk kcs) v2, h1.symm⟩
              · exact Option.noConfusion h
          · exact Option.noConfusion h
      · exact Option.noConfusion h

theorem pJ_obj_braces : ∀ (fuel : Nat) (m : PM) (cs : List Char) (v : Json) (r : List Char),
    pJ fuel m cs = some (v, r) →
    (∀ kvs, m = PM.val → v = Json.obj kvs → '{' ∈ cs ∧ '}' ∈ cs) ∧
    (∀ acc, m = PM.objItems acc → '}' ∈ cs) := by
  intro fuel
  induction fuel with
  | zero => intro m cs v r h; exact Option.noConfusion h
  | succ fuel ih =>
    intro m cs v r h
    cases m with
    | arrItems acc =>
      exact ⟨fun kvs heq _ => PM.noConfusion heq, fun acc2 heq => PM.noConfusion heq⟩
    | val =>
      refine ⟨fun kvs _ hv => ?_, fun acc2 heq => PM.noConfusion heq⟩
      subst hv
      simp only [pJ] at h
      split at h
      · injection h with hp
        injection hp with h1 h2
        exact Json.noConfusion h1
      · injection h with hp
        injection hp with h1 h2
        exact Json.noConfusion h1
      · injection h with hp
        injection hp with h1 h2
        exact Json.noConfusion h1
      · rw [Option.map_eq_some'] at h
        obtain ⟨⟨p1, p2⟩, hp, hpr⟩ := h
        injection hpr with h1 h2
        exact Json.noConfusion h1
      · rename_i cs2 heq
        split at h
        · injection h with hp
          injection hp with h1 h2
          exact Json.noConfusion h1
        · obtain ⟨l, hl⟩ := (pJ_shape fuel (PM.arrItems []) (skipWs cs2) _ _ h).1 [] rfl
          exact Json.noConfusion hl
      · rename_i cs2 heq
        have hlb : '{' ∈ cs := head_mem_skipWs heq
        have hcs2 : cs2 <:+ cs := suffix_through_skipWs ['{'] heq
        split at h
        · rename_i cs3 heq2
          exact ⟨hlb, hcs2.subset (head_mem_skipWs heq2)⟩
        · have hrb := (ih (PM.objItems []) (skipWs cs2) _ _ h).2 [] rfl
          exact ⟨hlb, hcs2.subset (skipWs_subset cs2 hrb)⟩
      · rw [Option.map_eq_some'] at h
        obtain ⟨⟨p1, p2⟩, hp, hpr⟩ := h
        injection hpr with h1 h2
        exact Json.noConfusion h1
    | objItems acc =>
      refine ⟨fun kvs heq _ => PM.noConfusion heq, fun acc2 _ => ?_⟩
      simp only [pJ] at h
      split at h
      · rename_i cs1 heq1
        have hcs1 : cs1 <:+ cs := suffix_through_skipWs ['"'] heq1
        split at h
        · exact Option.noConfusion h
        · rename_i kcs r1 heq2
          have hr1 : r1 <:+ cs := (pStrL_suffix cs1.length cs1 kcs r1 heq2).trans hcs1
          split at h
          · rename_i r2 heq3
            have hr2 : r2 <:+ cs := (suffix_through_skipWs [':'] heq3).trans hr1
            split at h
            · exact Option.noConfusion h
            · rename_i v2 r3 heq4
              have hr3 : r3 <:+ cs := (pJ_suffix fuel PM.val r2 v2 r3 heq4).trans hr2
              split at h
              · rename_i r4 heq5
                have hrb := (ih _ _ _ _ h).2 _ rfl
                have hr4 : r4 <:+ cs := ((suffix_through_skipWs [','] heq5).trans hr3)
                exact hr4.subset hrb
              · rename_i r4 heq5
                exact hr3.subset (head_mem_skipWs heq5)
              · exact Option.noConfusion h
          · exact Option.noConfusion h
      · exact Option.noConfusion h

theorem jsonParse_obj_braces {s : String} {kvs : List (String × Json)}
    (h : jsonParse s = some (Json.obj kvs)) : '{' ∈ s.toList ∧ '}' ∈ s.toList := by
  unfold jsonParse at h
  split at h
  · rename_i v rest heq
    split at h
    · injection h with hv
      subst hv
      exact (pJ_obj_braces _ PM.val s.toList _ _ heq).1 kvs rfl rfl
    · exact Option.noConfusion h
  · exact Option.noConfusion h

/-! ## C6 -/

/-- C6 (amended): when the first opening brace does not precede the last
closing brace, no slicing restriction applies — the candidate passed to
validation is the unchanged text when either brace is absent, and the empty
string when both exist but the last closing brace precedes the first opening
brace (a not-parseable violation).  A brace-less attempt can never be
accepted: it is a not-parseable violation exactly when the text is not valid
JSON, and the uncategorized keys attribute error when the text decodes to a
(necessarily non-mapping) JSON value. -/
theorem C6_no_candidate :
    (∀ s : String, findChar '{' s.toList = none ∨ rfindChar '}' s.toList = none →
      braceSlice s = s) ∧
    (∀ (s : String) (i j : Nat), findChar '{' s.toList = some i →
      rfindChar '}' s.toList = some j → j < i →
      parse_and_validate (braceSlice s) = Except.error VError.notParseable) ∧
    (∀ s : String, findChar '{' s.toList = none ∨ rfindChar '}' s.toList = none →
      (∀ v, parse_and_validate (braceSlice s) ≠ Except.ok v) ∧
      (jsonParse s = none →
        parse_and_validate (braceSlice s) = Except.error VError.notParseable) ∧
      (∀ j, jsonParse s = some j →
        parse_and_validate (braceSlice s) = Except.error (VError.attrNoKeys (pyTypeName j)))) := by
  have hid : ∀ s : String, findChar '{' s.toList = none ∨ rfindChar '}' s.toList = none →
      braceSlice s = s := by
    intro s hd
    unfold braceSlice
    rcases hd with h1 | h1
    · rw [h1]
    · rw [h1]
      cases hf : findChar '{' s.toList <;> rfl
  refine ⟨hid, ?_, ?_⟩
  · intro s i j hf hr hij
    have hslice : braceSlice s = "" := by
      unfold braceSlice
      rw [hf, hr]
      have hz : j + 1 - i = 0 := by omega
      simp only [hz]
      rfl
    rw [hslice]
    rfl
  · intro s hd
    rw [hid s hd]
    have hnotobj : ∀ kvs, jsonParse s ≠ some (Json.obj kvs) := by
      intro kvs hk
      obtain ⟨hlb, hrb⟩ := jsonParse_obj_braces hk
      rcases hd with h1 | h1
      · exact (findChar_eq_none s.toList).mp h1 hlb
      · exact rfindChar_eq_none.mp h1 hrb
    refine ⟨?_, ?_, ?_⟩
    · intro v hok
      rw [parse_and_validate] at hok
      cases hparse : jsonParse s with
      | none => rw [hparse] at hok; exact Except.noConfusion hok
      | some j =>
        rw [hparse] at hok
        obtain ⟨kvs, hj, -⟩ := validate_ok_iff.mp hok
        exact hnotobj kvs (by rw [hparse, hj])
    · intro hn
      rw [parse_and_validate, hn]
    · intro j hj
      rw [parse_and_validate, hj]
      cases j with
      | obj kvs => exact absurd hj (hnotobj kvs)
      | null => rfl
      | bool b => rfl
      | num l => rfl
      | str s2 => rfl
      | arr es => rfl

/-- C6 counterexample: on the raw output `[]` the extractor yields no
candidate, but the attempt is not treated as a not-parseable violation: the
unchanged text decodes as a JSON array and the recorded violation is the keys
attribute error, which produces a different repair prompt than the
not-parseable violation would. -/
theorem C6_counterexample :
    findChar '{' ("[]".toList) = none ∧
    braceSlice "[]" = "[]" ∧
    parse_and_validate (braceSlice "[]") = Except.error (VError.attrNoKeys "list") ∧
    parse_and_validate (braceSlice "[]") ≠ Except.error VError.notParseable ∧
    repairPrompt (vErrMsg (VError.attrNoKeys "list")) ≠
      repairPrompt (vErrMsg VError.notParseable) := by
  refine ⟨rfl, rfl, rfl, ?_, ?_⟩
  · rw [show parse_and_validate (braceSlice "[]")
      = Except.error (VError.attrNoKeys "list") from rfl]
    simp
  · decide

/-- C6 witness: the amended theorem applied to the brace-less texts `[]`
(valid JSON, attribute error) and `bad` (invalid JSON, not-parseable). -/
theorem C6_witness :
    braceSlice "[]" = "[]" ∧
    parse_and_validate (braceSlice "[]") ≠
      Except.ok (Json.obj [("category", Json.str "其他")]) ∧
    parse_and_validate (braceSlice "[]") = Except.error (VError.attrNoKeys "list") ∧
    parse_and_validate (braceSlice "bad") = Except.error VError.notParseable :=
  ⟨C6_no_candidate.1 "[]" (Or.inl rfl),
    (C6_no_candidate.2.2 "[]" (Or.inl rfl)).1 (Json.obj [("category", Json.str "其他")]),
    (C6_no_candidate.2.2 "[]" (Or.inl rfl)).2.2 (Json.arr []) rfl,
    (C6_no_candidate.2.2 "bad" (Or.inl rfl)).2.1 rfl⟩
